import Mathlib

/-!
Verification of the dataset-loading and preprocessing utilities of the
`results/dataloader.py` module: differentially-private mean/std statistics,
3D bounding-box extraction, volume cropping, intensity preprocessing,
segmentation label color mapping, and the shared `__getitem__` indexing
logic of the dataset adapter classes.

Numeric arrays are modelled over `ℚ`; volumes are total functions together
with explicit dimensions.
-/

/-! ## Definitions -/

/-! ### Differentially private statistics (`l1_sensitivity`, `calc_mean_std`) -/

/-- Model of `torch.mean` applied to a 1-D tensor: the arithmetic mean of
the entries. -/
def torch_mean (l : List ℚ) : ℚ :=
  l.sum / l.length

/-- Translation of `l1_sensitivity(query, d)` from `results/dataloader.py`
(lines 98–107).  `LeaveOneOut().split(data)` yields, for each index `i`,
the pair `(train_indices, test_index)`; `idx[0]` is the array of all
indices except `i`, so `data[idx[0]]` is the dataset with sample `i`
removed.  The loop keeps the largest `query` value seen, starting from
`0`. -/
def l1_sensitivity {α : Type} (query : List α → ℚ) (d : List α) : ℚ :=
  (List.range d.length).foldl
    (fun sensitivity i =>
      let val := query (d.eraseIdx i)
      if val > sensitivity then val else sensitivity)
    0

/-- Modelled from the spec: the leave-one-out sensitivity of a query, "the
maximum change in a statistic when one sample is removed", i.e. the maximum
over all samples `i` of the absolute difference between the query on the
full dataset and the query on the dataset with sample `i` removed. -/
def looSensitivity {α : Type} (query : List α → ℚ) (d : List α) : ℚ :=
  ((List.range d.length).map (fun i => |query d - query (d.eraseIdx i)|)).foldl max 0

/-- A sample of the accumulated dataset tensor built by `calc_mean_std` via
`stack`: a list of channels (axis 1 of the stacked tensor), each channel a
list of flattened spatial values.  All samples are assumed equal-sized, as
the function's docstring requires. -/
abbrev Sample := List (List ℚ)

/-- `accumulated_data.shape[1]`: the channel count of the stacked tensor. -/
def sampleChannels (ds : List Sample) : ℕ :=
  (ds.headD []).length

/-- All values of channel `c` across the whole stacked tensor (reduction
over dims `(0, 2, ...)`, i.e. everything except axis 1). -/
def channelValues (ds : List Sample) (c : ℕ) : List ℚ :=
  ds.flatMap (fun s => s.getD c [])

/-- All values of the stacked tensor (reduction over every dim). -/
def allValues (ds : List Sample) : List ℚ :=
  ds.flatMap (fun s => s.flatten)

/-- The unbiased sample variance used by `torch.std`/`torch.std_mean`
(Bessel-corrected, denominator `n - 1`). -/
def listVar (l : List ℚ) : ℚ :=
  ((l.map (fun x => (x - torch_mean l) ^ 2)).sum) / ((l.length : ℚ) - 1)

/-- Model of `torch.std` on a flattened list of values.  The square root is
kept abstract as a parameter `sqrtFn` (it is irrelevant to the claims,
which compare the two code paths using the same square root). -/
def torch_std (sqrtFn : ℚ → ℚ) (l : List ℚ) : ℚ :=
  sqrtFn (listVar l)

/-- Model of `torch.std_mean(accumulated_data, dim=dims)` together with the
dims selection of `calc_mean_std` (lines 135–138): if `shape[1]` is 1 or 3,
reduce over every dim except the channel axis, producing per-channel
statistics; otherwise reduce over all dims, producing a single scalar
(modelled as a one-element list).  Returns `(std, mean)` in `torch`'s
order. -/
def std_mean (sqrtFn : ℚ → ℚ) (ds : List Sample) : List ℚ × List ℚ :=
  if sampleChannels ds = 1 ∨ sampleChannels ds = 3 then
    ((List.range (sampleChannels ds)).map (fun c => torch_std sqrtFn (channelValues ds c)),
     (List.range (sampleChannels ds)).map (fun c => torch_mean (channelValues ds c)))
  else
    ([torch_std sqrtFn (allValues ds)], [torch_mean (allValues ds)])

/-- Translation of `calc_mean_std(dataset, save_folder, epsilon)` (lines
110–153), for the `torchdata.Dataset`/`stack` path, restricted to its
return value (the optional save to disk is omitted).  The random draws of
the two standard Laplace samples are passed in as `lapMeanDraw` and
`lapStdDraw`; the code scales them by `sensitivity / epsilon` and adds them
to every entry of the corresponding statistic.  `if epsilon:` is Python
truthiness, so `epsilon = 0` takes the noiseless branch.  Returns
`(mean, std)`. -/
def calc_mean_std (sqrtFn : ℚ → ℚ) (lapMeanDraw lapStdDraw : ℚ)
    (ds : List Sample) (epsilon : Option ℚ) : List ℚ × List ℚ :=
  if (epsilon.getD 0) ≠ 0 then
    let eps := epsilon.getD 0
    let mean_sens := l1_sensitivity (fun d => torch_mean (allValues d)) ds
    let std_sens := l1_sensitivity (fun d => torch_std sqrtFn (allValues d)) ds
    let sm := std_mean sqrtFn ds
    let std := sm.1.map (fun x => x + (std_sens / eps) * lapStdDraw)
    let mean := sm.2.map (fun x => x + (mean_sens / eps) * lapMeanDraw)
    (mean, std)
  else
    let sm := std_mean sqrtFn ds
    (sm.2, sm.1)

/-! ### 3D volumes -/

/-- A 3D numpy array: explicit dimensions (rows, columns, depth) and a
total valuation function.  Only indices below the dimensions are
meaningful. -/
structure Vol3 where
  dimR : ℕ
  dimC : ℕ
  dimZ : ℕ
  val : ℕ → ℕ → ℕ → ℚ

/-- `np.any(img, axis=(1, 2))` at row `i`: is some voxel in plane `i`
nonzero? -/
def anyR (v : Vol3) (i : ℕ) : Bool :=
  (List.range v.dimC).any fun j =>
    (List.range v.dimZ).any fun k => decide (v.val i j k ≠ 0)

/-- `np.any(img, axis=(0, 2))` at column `j`. -/
def anyC (v : Vol3) (j : ℕ) : Bool :=
  (List.range v.dimR).any fun i =>
    (List.range v.dimZ).any fun k => decide (v.val i j k ≠ 0)

/-- `np.any(img, axis=(0, 1))` at depth `k`. -/
def anyZ (v : Vol3) (k : ℕ) : Bool :=
  (List.range v.dimR).any fun i =>
    (List.range v.dimC).any fun j => decide (v.val i j k ≠ 0)

/-- `np.where(p)[0]` over an axis of length `n`: the (increasing) list of
indices satisfying `p`. -/
def whereIdx (p : ℕ → Bool) (n : ℕ) : List ℕ :=
  (List.range n).filter p

/-- `np.nonzero(img)[0].size == 0` is false, i.e. the volume has some
nonzero voxel. -/
def hasForeground (v : Vol3) : Bool :=
  (List.range v.dimR).any (anyR v)

/-- Translation of `bbox_dim_3D(img)` (lines 342–359): `None` when the
volume has no nonzero voxel, otherwise the first and last indices of the
rows / columns / depth slices containing a nonzero voxel
(`np.where(r)[0][[0, -1]]` etc.). -/
def bbox_dim_3D (v : Vol3) : Option (ℕ × ℕ × ℕ × ℕ × ℕ × ℕ) :=
  if hasForeground v then
    some ((whereIdx (anyR v) v.dimR).headD 0, (whereIdx (anyR v) v.dimR).getLastD 0,
          (whereIdx (anyC v) v.dimC).headD 0, (whereIdx (anyC v) v.dimC).getLastD 0,
          (whereIdx (anyZ v) v.dimZ).headD 0, (whereIdx (anyZ v) v.dimZ).getLastD 0)
  else
    none

/-- Numpy basic slicing `v[:, :, a:b]` for non-negative bounds `a ≤ b`:
keeps the depth slices with index in `[a, min b dimZ)`. -/
def sliceZ (v : Vol3) (a b : ℕ) : Vol3 :=
  { dimR := v.dimR, dimC := v.dimC,
    dimZ := min b v.dimZ - min a v.dimZ,
    val := fun i j k => v.val i j (a + k) }

/-- Translation of `crop_volume(data_volume, label_volume, crop_height)`
(lines 398–413).  Unpacking the `None` returned by `bbox_dim_3D` for an
empty label raises a `TypeError` in Python, modelled as `none`.
Python's `//` on non-negative ints is `Nat` division; the code clamps
`z_min` at `0`. -/
def crop_volume (data_volume label_volume : Vol3) (crop_height : ℕ) :
    Option (Vol3 × Vol3) :=
  match bbox_dim_3D label_volume with
  | none => none
  | some (_, _, _, _, zmin, zmax) =>
      let zmiddle := (zmin + zmax) / 2
      let z_min_int : ℤ := (zmiddle : ℤ) - (crop_height / 2 : ℕ)
      let z_min : ℕ := if z_min_int < 0 then 0 else z_min_int.toNat
      let z_max : ℕ := zmiddle + crop_height / 2
      some (sliceZ data_volume z_min z_max, sliceZ label_volume z_min z_max)

/-- Translation of `create_3D_label(rmin, rmax, cmin, cmax, zmin, zmax,
res, num_slices)` (lines 371–386): a zero volume of shape
`(res, res, num_slices)` on which the slice assignment
`label_volume[rmin:rmax, cmin:cmax, zmin:zmax] = 1.0` sets the voxels
whose indices lie in the (end-clamped) half-open ranges. -/
def create_3D_label (rmin rmax cmin cmax zmin zmax res num_slices : ℕ) : Vol3 :=
  { dimR := res, dimC := res, dimZ := num_slices,
    val := fun i j k =>
      if rmin ≤ i ∧ i < min rmax res ∧ cmin ≤ j ∧ j < min cmax res ∧
         zmin ≤ k ∧ k < min zmax num_slices then 1 else 0 }

/-- Translation of the `bbox-seg` branch of `MSD_data.get_item_from_index`
(lines 517–526): replace the label with the indicator of its bounding box,
`create_3D_label(b[0], ..., b[5], label.shape[1], label.shape[2])`.  When
`bbox_dim_3D` returns `None`, the subsequent subscript `b[0]` of `None`
raises a `TypeError`, modelled as `none`. -/
def msd_bbox_seg_label (label : Vol3) : Option Vol3 :=
  match bbox_dim_3D label with
  | none => none
  | some (rmin, rmax, cmin, cmax, zmin, zmax) =>
      some (create_3D_label rmin rmax cmin cmax zmin zmax label.dimC label.dimZ)

/-- Modelled from the spec: `skimage.transform.resize` (an external
library, not part of this repository) "resizing scan and label to a target
in-plane resolution and depth"; it returns an array of the requested
output shape.  Values are resampled here by nearest-neighbour indexing;
only the output shape matters for the claims. -/
def resize (v : Vol3) (r c z : ℕ) : Vol3 :=
  { dimR := r, dimC := c, dimZ := z,
    val := fun i j k => v.val (i * v.dimR / r) (j * v.dimC / c) (k * v.dimZ / z) }

/-! ### Intensity preprocessing (`scale_array`, `preprocess_scan`) -/

/-- `np.clip(scan, lo, hi)`, i.e. `np.minimum(np.maximum(scan, lo), hi)`
applied pointwise. -/
def np_clip (v : Vol3) (lo hi : ℚ) : Vol3 :=
  { v with val := fun i j k => min (max (v.val i j k) lo) hi }

/-- All in-bounds entries of a volume, flattened. -/
def entries (v : Vol3) : List ℚ :=
  (List.range v.dimR).flatMap fun i =>
    (List.range v.dimC).flatMap fun j =>
      (List.range v.dimZ).map fun k => v.val i j k

/-- `array.min()` (0 on an empty volume, where numpy would raise). -/
def volMin (v : Vol3) : ℚ :=
  match entries v with
  | [] => 0
  | x :: xs => xs.foldl min x

/-- `array.max()` (0 on an empty volume, where numpy would raise). -/
def volMax (v : Vol3) : ℚ :=
  match entries v with
  | [] => 0
  | x :: xs => xs.foldl max x

/-- Translation of `scale_array(array)` (lines 274–279): asserts
`array.max() - array.min() > 0` (modelled as `none` on failure), then maps
`x ↦ (x - min) / (max - min)` pointwise. -/
def scale_array (v : Vol3) : Option Vol3 :=
  if volMax v - volMin v > 0 then
    some { v with val := fun i j k => (v.val i j k - volMin v) / (volMax v - volMin v) }
  else
    none

/-- `np.rot90(v)`: rotate the first two axes counterclockwise, so the
result has shape `(dimC, dimR, dimZ)` and `result[i, j] = v[j, dimC-1-i]`. -/
def np_rot90 (v : Vol3) : Vol3 :=
  { dimR := v.dimC, dimC := v.dimR, dimZ := v.dimZ,
    val := fun i j k => v.val j (v.dimC - 1 - i) k }

/-- `np.fliplr(v)`: reverse the second axis. -/
def np_fliplr (v : Vol3) : Vol3 :=
  { v with val := fun i j k => v.val i (v.dimC - 1 - j) k }

/-- Translation of `preprocess_scan(scan)` (lines 282–293): clip to
`[-150, 200]`, min-max scale to `[0, 1]`, then `rot90` and `fliplr`. -/
def preprocess_scan (scan : Vol3) : Option Vol3 :=
  (scale_array (np_clip scan (-150) 200)).map (fun s => np_fliplr (np_rot90 s))

/-! ### Segmentation label color mapping -/

/-- A record of the fixed segmentation label vocabulary
(`SEG_LABELS_LIST`, lines 645–669). -/
structure SegLabel where
  id : ℕ
  name : String
  rgb_values : ℕ × ℕ × ℕ
deriving DecidableEq

/-- Translation of `SEG_LABELS_LIST` (lines 645–669). -/
def SEG_LABELS_LIST : List SegLabel :=
  [⟨0, "building", (128, 0, 0)⟩,
   ⟨1, "grass", (0, 128, 0)⟩,
   ⟨2, "tree", (128, 128, 0)⟩,
   ⟨3, "cow", (0, 0, 128)⟩,
   ⟨4, "horse", (128, 0, 128)⟩,
   ⟨5, "sheep", (0, 128, 128)⟩,
   ⟨6, "sky", (128, 128, 128)⟩,
   ⟨7, "mountain", (64, 0, 0)⟩,
   ⟨8, "airplane", (192, 0, 0)⟩,
   ⟨9, "water", (64, 128, 0)⟩,
   ⟨10, "face", (192, 128, 0)⟩,
   ⟨11, "car", (64, 0, 128)⟩,
   ⟨12, "bicycle", (192, 0, 128)⟩,
   ⟨13, "flower", (64, 128, 128)⟩,
   ⟨14, "sign", (192, 128, 128)⟩,
   ⟨15, "bird", (0, 64, 0)⟩,
   ⟨16, "book", (128, 64, 0)⟩,
   ⟨17, "chair", (0, 192, 0)⟩,
   ⟨18, "road", (128, 64, 128)⟩,
   ⟨19, "cat", (0, 192, 128)⟩,
   ⟨20, "dog", (128, 192, 128)⟩,
   ⟨21, "body", (64, 64, 0)⟩,
   ⟨22, "boat", (192, 64, 0)⟩]

/-- Translation of `label_img_to_rgb(label_img)` (lines 672–682), with the
2D image flattened to a list of pixels (`np.squeeze` is the identity on
our flat representation).  `np.unique` is modelled by `dedup`; each
vocabulary entry whose id occurs in the image overwrites the pixels whose
original class id equals its id (the masks are computed against the
unmodified `label_img`), and the final `astype(np.uint8)` reduces each
component mod 256. -/
def label_img_to_rgb (label_img : List ℕ) : List (ℕ × ℕ × ℕ) :=
  let labels := label_img.dedup
  let label_infos := SEG_LABELS_LIST.filter (fun l => decide (l.id ∈ labels))
  label_img.map (fun v =>
    let pix := label_infos.foldl
      (fun pix l => if v = l.id then l.rgb_values else pix) (v, v, v)
    (pix.1 % 256, pix.2.1 % 256, pix.2.2 % 256))

/-- One iteration of the per-entry masking loop in
`SegmentationData.get_item_from_index` (lines 730–737) at a single pixel.
`target_labels` is the view `target[..., 0]`, so writing the class id into
it mutates the red channel of `target`, which the masks of later entries
compare against; the pixel state is therefore the full current triple. -/
def rgbMaskStep (pix : ℕ × ℕ × ℕ) (l : SegLabel) : ℕ × ℕ × ℕ :=
  if pix = l.rgb_values then (l.id, pix.2.1, pix.2.2) else pix

/-- Translation of the RGB→class-id conversion of
`SegmentationData.get_item_from_index`: run the masking loop over all
vocabulary entries at every pixel, then read off the red channel (the
`target_labels` view). -/
def rgb_to_labels (target : List (ℕ × ℕ × ℕ)) : List ℕ :=
  (target.map (fun pix => SEG_LABELS_LIST.foldl rgbMaskStep pix)).map
    (fun pix => pix.1)

/-! ### Dataset `__getitem__` indexing -/

/-- An index key passed to `__getitem__`: a Python int, a slice (start,
stop, step, each possibly `None`), or a value of any other type. -/
inductive Key where
  | int : ℤ → Key
  | slice : Option ℤ → Option ℤ → Option ℤ → Key
  | other : Key

/-- The observable outcome of `__getitem__`: a single sample, a list of
samples, or a raised exception. -/
inductive GetResult (α : Type) where
  | item : α → GetResult α
  | items : List α → GetResult α
  | indexError : GetResult α
  | typeError : GetResult α
  | valueError : GetResult α
deriving DecidableEq

/-- CPython `range(start, stop, step)` as a list, for `step ≠ 0` (a zero
step yields `[]` here; callers guard it). -/
def pyRange (start stop step : ℤ) : List ℤ :=
  if step = 0 then []
  else
    (List.range
      (if 0 < step then ((stop - start).toNat + (step.toNat - 1)) / step.toNat
       else ((start - stop).toNat + ((-step).toNat - 1)) / (-step).toNat)).map
      (fun i : ℕ => start + step * (i : ℤ))

/-- The clamping `slice.indices` applies to an explicit start/stop value
(`None` selects the default). -/
def sliceClamp (v : Option ℤ) (dflt lower upper : ℤ) (length : ℕ) : ℤ :=
  match v with
  | none => dflt
  | some a => if a < 0 then max (a + length) lower else min a upper

/-- CPython `slice.indices(length)` followed by `range(...)`: the indices
a slice selects from a sequence of the given length
(`PySlice_GetIndices` semantics, assuming a nonzero step). -/
def sliceIndices (start stop step : Option ℤ) (length : ℕ) : List ℤ :=
  pyRange
    (sliceClamp start
      (if step.getD 1 < 0 then (length : ℤ) - 1 else 0)
      (if step.getD 1 < 0 then -1 else 0)
      (if step.getD 1 < 0 then (length : ℤ) - 1 else length) length)
    (sliceClamp stop
      (if step.getD 1 < 0 then -1 else (length : ℤ))
      (if step.getD 1 < 0 then -1 else 0)
      (if step.getD 1 < 0 then (length : ℤ) - 1 else length) length)
    (step.getD 1)

/-- The integer branch shared by the three `__getitem__` implementations:
negative keys are shifted by the length, out-of-range keys raise
`IndexError`, in-range keys fetch the sample. -/
def getitem_int {α : Type} (fetch : ℕ → α) (n : ℕ) (k : ℤ) : GetResult α :=
  if (if k < 0 then k + n else k) < 0 ∨ (n : ℤ) ≤ (if k < 0 then k + n else k) then
    GetResult.indexError
  else
    GetResult.item (fetch (if k < 0 then k + n else k).toNat)

/-- Collect the elementwise lookups of the slice comprehension
`[self[ii] for ii in ...]`; a raised `IndexError` aborts it. -/
def collectItems {α : Type} : List (GetResult α) → Option (List α)
  | [] => some []
  | GetResult.item x :: rest => (collectItems rest).map (fun xs => x :: xs)
  | _ :: _ => none

/-- Translation of the `__getitem__` methods of `MSD_data` (lines
487–500), `MSD_data_images` (lines 615–630) and `SegmentationData` (lines
692–705), which share this logic verbatim (`MSD_data_images` first
converts `np.integer` keys to `int`; the `ℤ` key already models that).
`fetch` abstracts `get_item_from_index` and `n` is `len(self)`.  A slice
key runs `[self[ii] for ii in range(*key.indices(len(self)))]`; a zero
slice step makes `key.indices` raise `ValueError`. -/
def dataset_getitem {α : Type} (fetch : ℕ → α) (n : ℕ) : Key → GetResult α
  | Key.slice start stop step =>
      if step.getD 1 = 0 then GetResult.valueError
      else
        match collectItems ((sliceIndices start stop step n).map
          (fun ii => getitem_int fetch n ii)) with
        | some xs => GetResult.items xs
        | none => GetResult.indexError
  | Key.int k => getitem_int fetch n k
  | Key.other => GetResult.typeError

/-! ### Concrete volumes used to instantiate theorems with hypotheses -/

/-- A small concrete volume: a single nonzero voxel at `(1, 0, 1)` inside
shape `(2, 2, 3)`. -/
def sampleVol : Vol3 :=
  ⟨2, 2, 3, fun i j k => if i = 1 ∧ j = 0 ∧ k = 1 then 1 else 0⟩

/-- The all-zero volume of shape `(2, 2, 3)`. -/
def zeroVol : Vol3 :=
  ⟨2, 2, 3, fun _ _ _ => 0⟩

/-! ## Theorems -/

/-- C1: `l1_sensitivity` does not compute the leave-one-out sensitivity.
On the two-sample dataset `[0, 10]` with `query = torch.mean`, the code
returns `max_i mean(d with sample i removed) = 10`, while the leave-one-out
sensitivity of the mean is `max_i |mean(d) - mean(d minus i)| = 5`. -/
theorem l1_sensitivity_is_not_loo_sensitivity :
    l1_sensitivity torch_mean [(0 : ℚ), 10] = 10 ∧
    looSensitivity torch_mean [(0 : ℚ), 10] = 5 ∧
    l1_sensitivity torch_mean [(0 : ℚ), 10] ≠
      looSensitivity torch_mean [(0 : ℚ), 10] := by
  refine ⟨?_, ?_, ?_⟩ <;>
    norm_num [l1_sensitivity, looSensitivity, torch_mean, List.range_succ]

theorem mem_whereIdx {p : ℕ → Bool} {n i : ℕ} :
    i ∈ whereIdx p n ↔ i < n ∧ p i := by
  simp [whereIdx, List.mem_filter, List.mem_range]

theorem whereIdx_pairwise (p : ℕ → Bool) (n : ℕ) :
    (whereIdx p n).Pairwise (· < ·) :=
  (List.pairwise_lt_range n).filter p

theorem headD_le_of_pairwise {l : List ℕ} (d : ℕ) (hp : l.Pairwise (· < ·)) :
    ∀ x ∈ l, l.headD d ≤ x := by
  intro x hx
  cases l with
  | nil => cases hx
  | cons a t =>
    rcases List.mem_cons.mp hx with rfl | hxt
    · simp
    · have := List.rel_of_pairwise_cons hp hxt
      simp only [List.headD_cons]
      omega

theorem le_getLastD_of_pairwise :
    ∀ (l : List ℕ) (d : ℕ), l.Pairwise (· < ·) → ∀ x ∈ l, x ≤ l.getLastD d := by
  intro l
  induction l with
  | nil => intro d _ x hx; cases hx
  | cons a t ih =>
    intro d hp x hx
    rw [List.getLastD_cons]
    rcases List.mem_cons.mp hx with rfl | hxt
    · cases t with
      | nil => simp
      | cons b t2 =>
        have hab : x < b := List.rel_of_pairwise_cons hp (List.mem_cons_self b t2)
        have hb := ih x hp.of_cons b (List.mem_cons_self b t2)
        omega
    · exact ih a hp.of_cons x hxt

theorem headD_mem {l : List ℕ} (h : l ≠ []) (d : ℕ) : l.headD d ∈ l := by
  cases l with
  | nil => exact absurd rfl h
  | cons a t => simp

theorem getLastD_mem : ∀ (l : List ℕ), l ≠ [] → ∀ d : ℕ, l.getLastD d ∈ l
  | [], h, _ => absurd rfl h
  | [_], _, _ => by simp
  | a :: b :: t, _, _ => by
      rw [List.getLastD_cons]
      exact List.mem_cons_of_mem a (getLastD_mem (b :: t) (by simp) a)

theorem anyR_eq_true {v : Vol3} {i : ℕ} :
    anyR v i = true ↔ ∃ j < v.dimC, ∃ k < v.dimZ, v.val i j k ≠ 0 := by
  simp [anyR, List.any_eq_true, List.mem_range]

theorem anyC_eq_true {v : Vol3} {j : ℕ} :
    anyC v j = true ↔ ∃ i < v.dimR, ∃ k < v.dimZ, v.val i j k ≠ 0 := by
  simp [anyC, List.any_eq_true, List.mem_range]

theorem anyZ_eq_true {v : Vol3} {k : ℕ} :
    anyZ v k = true ↔ ∃ i < v.dimR, ∃ j < v.dimC, v.val i j k ≠ 0 := by
  simp [anyZ, List.any_eq_true, List.mem_range]

theorem hasForeground_iff {v : Vol3} :
    hasForeground v = true ↔
      ∃ i < v.dimR, ∃ j < v.dimC, ∃ k < v.dimZ, v.val i j k ≠ 0 := by
  simp only [hasForeground, List.any_eq_true, List.mem_range]
  constructor
  · rintro ⟨i, hi, hany⟩
    exact ⟨i, hi, anyR_eq_true.mp hany⟩
  · rintro ⟨i, hi, hrest⟩
    exact ⟨i, hi, anyR_eq_true.mpr hrest⟩

/-- The meaning of each component of a `some` result of `bbox_dim_3D`. -/
theorem bbox_dim_3D_eq_some {v : Vol3} {rmin rmax cmin cmax zmin zmax : ℕ}
    (h : bbox_dim_3D v = some (rmin, rmax, cmin, cmax, zmin, zmax)) :
    rmin = (whereIdx (anyR v) v.dimR).headD 0 ∧
    rmax = (whereIdx (anyR v) v.dimR).getLastD 0 ∧
    cmin = (whereIdx (anyC v) v.dimC).headD 0 ∧
    cmax = (whereIdx (anyC v) v.dimC).getLastD 0 ∧
    zmin = (whereIdx (anyZ v) v.dimZ).headD 0 ∧
    zmax = (whereIdx (anyZ v) v.dimZ).getLastD 0 ∧
    hasForeground v = true := by
  unfold bbox_dim_3D at h
  by_cases hf : hasForeground v
  · rw [if_pos hf] at h
    obtain ⟨h1, h2, h3, h4, h5, h6⟩ := Prod.mk.injEq .. ▸ (Option.some.injEq .. ▸ h :)
    exact ⟨h1.symm, by simp_all⟩
  · rw [if_neg hf] at h
    cases h

/-- A nonempty `whereIdx` list: its first element is the least index
satisfying `p`, its last the greatest, both below `n`. -/
theorem whereIdx_bounds {p : ℕ → Bool} {n : ℕ} (h : whereIdx p n ≠ []) :
    (whereIdx p n).headD 0 ≤ (whereIdx p n).getLastD 0 ∧
    (whereIdx p n).headD 0 < n ∧ (whereIdx p n).getLastD 0 < n ∧
    p ((whereIdx p n).headD 0) = true ∧ p ((whereIdx p n).getLastD 0) = true := by
  have hm := headD_mem h 0
  have hlm := getLastD_mem (whereIdx p n) h 0
  have h1 := mem_whereIdx.mp hm
  have h2 := mem_whereIdx.mp hlm
  exact ⟨le_getLastD_of_pairwise _ 0 (whereIdx_pairwise p n) _ hm,
         h1.1, h2.1, h1.2, h2.2⟩

/-- C2: on a volume with at least one nonzero voxel, `bbox_dim_3D` returns
six indices bounding every nonzero voxel, each bound attained by some
nonzero voxel. -/
theorem bbox_dim_3D_contains_and_tight (v : Vol3)
    (hfg : ∃ i < v.dimR, ∃ j < v.dimC, ∃ k < v.dimZ, v.val i j k ≠ 0) :
    ∃ rmin rmax cmin cmax zmin zmax,
      bbox_dim_3D v = some (rmin, rmax, cmin, cmax, zmin, zmax) ∧
      (∀ r < v.dimR, ∀ c < v.dimC, ∀ z < v.dimZ, v.val r c z ≠ 0 →
        rmin ≤ r ∧ r ≤ rmax ∧ cmin ≤ c ∧ c ≤ cmax ∧ zmin ≤ z ∧ z ≤ zmax) ∧
      (∃ c < v.dimC, ∃ z < v.dimZ, v.val rmin c z ≠ 0) ∧
      (∃ c < v.dimC, ∃ z < v.dimZ, v.val rmax c z ≠ 0) ∧
      (∃ r < v.dimR, ∃ z < v.dimZ, v.val r cmin z ≠ 0) ∧
      (∃ r < v.dimR, ∃ z < v.dimZ, v.val r cmax z ≠ 0) ∧
      (∃ r < v.dimR, ∃ c < v.dimC, v.val r c zmin ≠ 0) ∧
      (∃ r < v.dimR, ∃ c < v.dimC, v.val r c zmax ≠ 0) := by
  have hf : hasForeground v = true := hasForeground_iff.mpr hfg
  obtain ⟨i, hi, j, hj, k, hk, hnz⟩ := hfg
  have hiR : i ∈ whereIdx (anyR v) v.dimR :=
    mem_whereIdx.mpr ⟨hi, anyR_eq_true.mpr ⟨j, hj, k, hk, hnz⟩⟩
  have hjC : j ∈ whereIdx (anyC v) v.dimC :=
    mem_whereIdx.mpr ⟨hj, anyC_eq_true.mpr ⟨i, hi, k, hk, hnz⟩⟩
  have hkZ : k ∈ whereIdx (anyZ v) v.dimZ :=
    mem_whereIdx.mpr ⟨hk, anyZ_eq_true.mpr ⟨i, hi, j, hj, hnz⟩⟩
  have hRne := List.ne_nil_of_mem hiR
  have hCne := List.ne_nil_of_mem hjC
  have hZne := List.ne_nil_of_mem hkZ
  refine ⟨_, _, _, _, _, _, by rw [bbox_dim_3D, if_pos hf], ?_, ?_, ?_, ?_, ?_, ?_, ?_⟩
  · intro r hr c hc z hz hnz'
    have hrm : r ∈ whereIdx (anyR v) v.dimR :=
      mem_whereIdx.mpr ⟨hr, anyR_eq_true.mpr ⟨c, hc, z, hz, hnz'⟩⟩
    have hcm : c ∈ whereIdx (anyC v) v.dimC :=
      mem_whereIdx.mpr ⟨hc, anyC_eq_true.mpr ⟨r, hr, z, hz, hnz'⟩⟩
    have hzm : z ∈ whereIdx (anyZ v) v.dimZ :=
      mem_whereIdx.mpr ⟨hz, anyZ_eq_true.mpr ⟨r, hr, c, hc, hnz'⟩⟩
    exact ⟨headD_le_of_pairwise 0 (whereIdx_pairwise _ _) _ hrm,
           le_getLastD_of_pairwise _ 0 (whereIdx_pairwise _ _) _ hrm,
           headD_le_of_pairwise 0 (whereIdx_pairwise _ _) _ hcm,
           le_getLastD_of_pairwise _ 0 (whereIdx_pairwise _ _) _ hcm,
           headD_le_of_pairwise 0 (whereIdx_pairwise _ _) _ hzm,
           le_getLastD_of_pairwise _ 0 (whereIdx_pairwise _ _) _ hzm⟩
  · exact anyR_eq_true.mp (whereIdx_bounds hRne).2.2.2.1
  · exact anyR_eq_true.mp (whereIdx_bounds hRne).2.2.2.2
  · exact anyC_eq_true.mp (whereIdx_bounds hCne).2.2.2.1
  · exact anyC_eq_true.mp (whereIdx_bounds hCne).2.2.2.2
  · exact anyZ_eq_true.mp (whereIdx_bounds hZne).2.2.2.1
  · exact anyZ_eq_true.mp (whereIdx_bounds hZne).2.2.2.2

/-- Witness for C2 at the concrete volume `sampleVol`. -/
theorem bbox_dim_3D_contains_and_tight_witness :
    (∃ i < sampleVol.dimR, ∃ j < sampleVol.dimC, ∃ k < sampleVol.dimZ,
        sampleVol.val i j k ≠ 0) ∧
    (∃ rmin rmax cmin cmax zmin zmax,
      bbox_dim_3D sampleVol = some (rmin, rmax, cmin, cmax, zmin, zmax) ∧
      (∀ r < sampleVol.dimR, ∀ c < sampleVol.dimC, ∀ z < sampleVol.dimZ,
        sampleVol.val r c z ≠ 0 →
        rmin ≤ r ∧ r ≤ rmax ∧ cmin ≤ c ∧ c ≤ cmax ∧ zmin ≤ z ∧ z ≤ zmax) ∧
      (∃ c < sampleVol.dimC, ∃ z < sampleVol.dimZ, sampleVol.val rmin c z ≠ 0) ∧
      (∃ c < sampleVol.dimC, ∃ z < sampleVol.dimZ, sampleVol.val rmax c z ≠ 0) ∧
      (∃ r < sampleVol.dimR, ∃ z < sampleVol.dimZ, sampleVol.val r cmin z ≠ 0) ∧
      (∃ r < sampleVol.dimR, ∃ z < sampleVol.dimZ, sampleVol.val r cmax z ≠ 0) ∧
      (∃ r < sampleVol.dimR, ∃ c < sampleVol.dimC, sampleVol.val r c zmin ≠ 0) ∧
      (∃ r < sampleVol.dimR, ∃ c < sampleVol.dimC, sampleVol.val r c zmax ≠ 0)) := by
  have hyp : ∃ i < sampleVol.dimR, ∃ j < sampleVol.dimC, ∃ k < sampleVol.dimZ,
      sampleVol.val i j k ≠ 0 := ⟨1, by decide, 0, by decide, 1, by decide, by decide⟩
  exact ⟨hyp, bbox_dim_3D_contains_and_tight sampleVol hyp⟩

/-- On a volume with foreground, `bbox_dim_3D` succeeds and its depth
bounds satisfy `zmin ≤ zmax < dimZ`. -/
theorem bbox_of_foreground {v : Vol3}
    (hfg : ∃ i < v.dimR, ∃ j < v.dimC, ∃ k < v.dimZ, v.val i j k ≠ 0) :
    ∃ rmin rmax cmin cmax zmin zmax,
      bbox_dim_3D v = some (rmin, rmax, cmin, cmax, zmin, zmax) ∧
      zmin ≤ zmax ∧ zmax < v.dimZ := by
  have hf : hasForeground v = true := hasForeground_iff.mpr hfg
  obtain ⟨i, hi, j, hj, k, hk, hnz⟩ := hfg
  have hkZ : k ∈ whereIdx (anyZ v) v.dimZ :=
    mem_whereIdx.mpr ⟨hk, anyZ_eq_true.mpr ⟨i, hi, j, hj, hnz⟩⟩
  have hb := whereIdx_bounds (List.ne_nil_of_mem hkZ)
  exact ⟨_, _, _, _, _, _, by rw [bbox_dim_3D, if_pos hf], hb.1, hb.2.2.1⟩

/-- C4: on equal-shaped volumes whose label has foreground, `crop_volume`
keeps the depth slices `[max 0 (zmiddle - h/2), zmiddle + h/2)` of both
volumes (truncated at the volume end), unchanged in the first two axes,
where `zmiddle = (zmin + zmax) / 2` comes from the label's bounding box. -/
theorem crop_volume_is_depth_slice (data label : Vol3) (crop_height : ℕ)
    (hR : data.dimR = label.dimR) (hC : data.dimC = label.dimC)
    (hZ : data.dimZ = label.dimZ)
    (hfg : ∃ i < label.dimR, ∃ j < label.dimC, ∃ k < label.dimZ,
      label.val i j k ≠ 0) :
    ∃ rmin rmax cmin cmax zmin zmax,
      bbox_dim_3D label = some (rmin, rmax, cmin, cmax, zmin, zmax) ∧
      -- `(zmin + zmax) / 2 - crop_height / 2` is ℕ subtraction, i.e.
      -- exactly the claimed `max 0 (zmiddle - h/2)`.
      ∃ cd cl, crop_volume data label crop_height = some (cd, cl) ∧
        cd.dimR = data.dimR ∧ cd.dimC = data.dimC ∧
        cd.dimZ = min ((zmin + zmax) / 2 + crop_height / 2) data.dimZ -
          ((zmin + zmax) / 2 - crop_height / 2) ∧
        cl.dimR = label.dimR ∧ cl.dimC = label.dimC ∧
        cl.dimZ = min ((zmin + zmax) / 2 + crop_height / 2) label.dimZ -
          ((zmin + zmax) / 2 - crop_height / 2) ∧
        (∀ i j k, cd.val i j k =
          data.val i j ((zmin + zmax) / 2 - crop_height / 2 + k)) ∧
        (∀ i j k, cl.val i j k =
          label.val i j ((zmin + zmax) / 2 - crop_height / 2 + k)) := by
  obtain ⟨rmin, rmax, cmin, cmax, zmin, zmax, hbbox, hzle, hzlt⟩ :=
    bbox_of_foreground hfg
  refine ⟨rmin, rmax, cmin, cmax, zmin, zmax, hbbox, ?_⟩
  have hcrop : crop_volume data label crop_height =
      some (sliceZ data ((zmin + zmax) / 2 - crop_height / 2)
              ((zmin + zmax) / 2 + crop_height / 2),
            sliceZ label ((zmin + zmax) / 2 - crop_height / 2)
              ((zmin + zmax) / 2 + crop_height / 2)) := by
    unfold crop_volume
    rw [hbbox]
    have : (if (((zmin + zmax) / 2 : ℕ) : ℤ) - (crop_height / 2 : ℕ) < 0 then 0
        else ((((zmin + zmax) / 2 : ℕ) : ℤ) - (crop_height / 2 : ℕ)).toNat) =
        (zmin + zmax) / 2 - crop_height / 2 := by
      split <;> omega
    simp only [this]
  refine ⟨_, _, hcrop, rfl, rfl, ?_, rfl, rfl, ?_, fun i j k => rfl, fun i j k => rfl⟩
  · show min _ data.dimZ - min ((zmin + zmax) / 2 - crop_height / 2) data.dimZ = _
    omega
  · show min _ label.dimZ - min ((zmin + zmax) / 2 - crop_height / 2) label.dimZ = _
    omega

/-- Witness for C4 at the concrete pair `(sampleVol, sampleVol)`. -/
theorem crop_volume_is_depth_slice_witness :
    (∃ i < sampleVol.dimR, ∃ j < sampleVol.dimC, ∃ k < sampleVol.dimZ,
        sampleVol.val i j k ≠ 0) ∧
    (∃ rmin rmax cmin cmax zmin zmax,
      bbox_dim_3D sampleVol = some (rmin, rmax, cmin, cmax, zmin, zmax) ∧
      ∃ cd cl, crop_volume sampleVol sampleVol 32 = some (cd, cl) ∧
        cd.dimR = sampleVol.dimR ∧ cd.dimC = sampleVol.dimC ∧
        cd.dimZ = min ((zmin + zmax) / 2 + 32 / 2) sampleVol.dimZ -
          ((zmin + zmax) / 2 - 32 / 2) ∧
        cl.dimR = sampleVol.dimR ∧ cl.dimC = sampleVol.dimC ∧
        cl.dimZ = min ((zmin + zmax) / 2 + 32 / 2) sampleVol.dimZ -
          ((zmin + zmax) / 2 - 32 / 2) ∧
        (∀ i j k, cd.val i j k =
          sampleVol.val i j ((zmin + zmax) / 2 - 32 / 2 + k)) ∧
        (∀ i j k, cl.val i j k =
          sampleVol.val i j ((zmin + zmax) / 2 - 32 / 2 + k))) := by
  have hyp : ∃ i < sampleVol.dimR, ∃ j < sampleVol.dimC, ∃ k < sampleVol.dimZ,
      sampleVol.val i j k ≠ 0 := ⟨1, by decide, 0, by decide, 1, by decide, by decide⟩
  exact ⟨hyp, crop_volume_is_depth_slice sampleVol sampleVol 32 rfl rfl rfl hyp⟩

/-- C5: on an all-zero label, `bbox_dim_3D` returns `None`, and both
`crop_volume` (which unpacks the `None`) and the `bbox-seg` label branch of
`MSD_data.get_item_from_index` (which subscripts the `None`) fail rather
than producing a result. -/
theorem empty_label_fails (data label : Vol3) (crop_height : ℕ)
    (hzero : ∀ i < label.dimR, ∀ j < label.dimC, ∀ k < label.dimZ,
      label.val i j k = 0) :
    bbox_dim_3D label = none ∧
    crop_volume data label crop_height = none ∧
    msd_bbox_seg_label label = none := by
  have hf : hasForeground label ≠ true := by
    intro hfg
    obtain ⟨i, hi, j, hj, k, hk, hnz⟩ := hasForeground_iff.mp hfg
    exact hnz (hzero i hi j hj k hk)
  have hb : bbox_dim_3D label = none := by
    rw [bbox_dim_3D, if_neg hf]
  refine ⟨hb, ?_, ?_⟩
  · unfold crop_volume; rw [hb]
  · unfold msd_bbox_seg_label; rw [hb]

/-- Witness for C5 at the all-zero volume `zeroVol`. -/
theorem empty_label_fails_witness :
    (∀ i < zeroVol.dimR, ∀ j < zeroVol.dimC, ∀ k < zeroVol.dimZ,
      zeroVol.val i j k = 0) ∧
    (bbox_dim_3D zeroVol = none ∧
     crop_volume sampleVol zeroVol 32 = none ∧
     msd_bbox_seg_label zeroVol = none) := by
  have hyp : ∀ i < zeroVol.dimR, ∀ j < zeroVol.dimC, ∀ k < zeroVol.dimZ,
      zeroVol.val i j k = 0 := fun _ _ _ _ _ _ => rfl
  exact ⟨hyp, empty_label_fails sampleVol zeroVol 32 hyp⟩

/-- C6: on equal-shaped volumes whose label has foreground, cropping
returns two volumes of equal shape, and resizing both to
`(res, res, res_z)` again yields equal shapes. -/
theorem crop_resize_preserves_shape (data label : Vol3)
    (crop_height res res_z : ℕ)
    (hR : data.dimR = label.dimR) (hC : data.dimC = label.dimC)
    (hZ : data.dimZ = label.dimZ)
    (hfg : ∃ i < label.dimR, ∃ j < label.dimC, ∃ k < label.dimZ,
      label.val i j k ≠ 0) :
    ∃ cd cl, crop_volume data label crop_height = some (cd, cl) ∧
      cd.dimR = cl.dimR ∧ cd.dimC = cl.dimC ∧ cd.dimZ = cl.dimZ ∧
      (resize cd res res res_z).dimR = res ∧
      (resize cd res res res_z).dimC = res ∧
      (resize cd res res res_z).dimZ = res_z ∧
      (resize cl res res res_z).dimR = res ∧
      (resize cl res res res_z).dimC = res ∧
      (resize cl res res res_z).dimZ = res_z := by
  obtain ⟨rmin, rmax, cmin, cmax, zmin, zmax, hbbox, _, _⟩ := bbox_of_foreground hfg
  unfold crop_volume
  rw [hbbox]
  refine ⟨_, _, rfl, ?_, ?_, ?_, rfl, rfl, rfl, rfl, rfl, rfl⟩
  · exact hR
  · exact hC
  · show min _ data.dimZ - min _ data.dimZ = min _ label.dimZ - min _ label.dimZ
    rw [hZ]

/-- Witness for C6 at the concrete pair `(sampleVol, sampleVol)`. -/
theorem crop_resize_preserves_shape_witness :
    (∃ i < sampleVol.dimR, ∃ j < sampleVol.dimC, ∃ k < sampleVol.dimZ,
        sampleVol.val i j k ≠ 0) ∧
    (∃ cd cl, crop_volume sampleVol sampleVol 32 = some (cd, cl) ∧
      cd.dimR = cl.dimR ∧ cd.dimC = cl.dimC ∧ cd.dimZ = cl.dimZ ∧
      (resize cd 4 4 4).dimR = 4 ∧
      (resize cd 4 4 4).dimC = 4 ∧
      (resize cd 4 4 4).dimZ = 4 ∧
      (resize cl 4 4 4).dimR = 4 ∧
      (resize cl 4 4 4).dimC = 4 ∧
      (resize cl 4 4 4).dimZ = 4) := by
  have hyp : ∃ i < sampleVol.dimR, ∃ j < sampleVol.dimC, ∃ k < sampleVol.dimZ,
      sampleVol.val i j k ≠ 0 := ⟨1, by decide, 0, by decide, 1, by decide, by decide⟩
  exact ⟨hyp, crop_resize_preserves_shape sampleVol sampleVol 32 4 4 rfl rfl rfl hyp⟩

/-- C10: `create_3D_label` produces a `(res, res, num_slices)` volume that
is `1` exactly on the half-open box `[rmin, rmax) × [cmin, cmax) ×
[zmin, zmax)` and `0` elsewhere; in particular the voxels at the maximal
indices `rmax`, `cmax`, `zmax` are excluded. -/
theorem create_3D_label_is_half_open_box
    (rmin rmax cmin cmax zmin zmax res num_slices : ℕ)
    (hr : rmax ≤ res) (hc : cmax ≤ res) (hz : zmax ≤ num_slices) :
    (create_3D_label rmin rmax cmin cmax zmin zmax res num_slices).dimR = res ∧
    (create_3D_label rmin rmax cmin cmax zmin zmax res num_slices).dimC = res ∧
    (create_3D_label rmin rmax cmin cmax zmin zmax res num_slices).dimZ = num_slices ∧
    (∀ i j k, (create_3D_label rmin rmax cmin cmax zmin zmax res num_slices).val i j k =
      if rmin ≤ i ∧ i < rmax ∧ cmin ≤ j ∧ j < cmax ∧ zmin ≤ k ∧ k < zmax
      then 1 else 0) ∧
    (∀ j k, (create_3D_label rmin rmax cmin cmax zmin zmax res num_slices).val rmax j k = 0) ∧
    (∀ i k, (create_3D_label rmin rmax cmin cmax zmin zmax res num_slices).val i cmax k = 0) ∧
    (∀ i j, (create_3D_label rmin rmax cmin cmax zmin zmax res num_slices).val i j zmax = 0) := by
  refine ⟨rfl, rfl, rfl, ?_, ?_, ?_, ?_⟩
  · intro i j k
    simp only [create_3D_label]
    rw [Nat.min_eq_left hr, Nat.min_eq_left hc, Nat.min_eq_left hz]
  · intro j k
    simp only [create_3D_label]
    rw [if_neg (by omega)]
  · intro i k
    simp only [create_3D_label]
    rw [if_neg (by omega)]
  · intro i j
    simp only [create_3D_label]
    rw [if_neg (by omega)]

/-- Witness for C10 at the concrete box `[0,1) × [0,1) × [1,2)` inside a
`(2, 2, 3)` volume. -/
theorem create_3D_label_is_half_open_box_witness :
    ((1:ℕ) ≤ 2 ∧ (1:ℕ) ≤ 2 ∧ (2:ℕ) ≤ 3) ∧
    ((create_3D_label 0 1 0 1 1 2 2 3).dimR = 2 ∧
    (create_3D_label 0 1 0 1 1 2 2 3).dimC = 2 ∧
    (create_3D_label 0 1 0 1 1 2 2 3).dimZ = 3 ∧
    (∀ i j k, (create_3D_label 0 1 0 1 1 2 2 3).val i j k =
      if 0 ≤ i ∧ i < 1 ∧ 0 ≤ j ∧ j < 1 ∧ 1 ≤ k ∧ k < 2 then 1 else 0) ∧
    (∀ j k, (create_3D_label 0 1 0 1 1 2 2 3).val 1 j k = 0) ∧
    (∀ i k, (create_3D_label 0 1 0 1 1 2 2 3).val i 1 k = 0) ∧
    (∀ i j, (create_3D_label 0 1 0 1 1 2 2 3).val i j 2 = 0)) :=
  ⟨⟨by decide, by decide, by decide⟩,
   create_3D_label_is_half_open_box 0 1 0 1 1 2 2 3 (by decide) (by decide) (by decide)⟩

theorem mem_entries {v : Vol3} {x : ℚ} :
    x ∈ entries v ↔ ∃ i < v.dimR, ∃ j < v.dimC, ∃ k < v.dimZ, v.val i j k = x := by
  simp [entries, List.mem_flatMap, List.mem_map, List.mem_range]

theorem foldl_min_le_init (xs : List ℚ) (a : ℚ) : xs.foldl min a ≤ a := by
  induction xs generalizing a with
  | nil => simp
  | cons y ys ih => exact le_trans (ih (min a y)) (min_le_left a y)

theorem foldl_min_le_mem (xs : List ℚ) (a : ℚ) : ∀ x ∈ xs, xs.foldl min a ≤ x := by
  induction xs generalizing a with
  | nil => intro x hx; cases hx
  | cons y ys ih =>
    intro x hx
    rcases List.mem_cons.mp hx with rfl | hxs
    · exact le_trans (foldl_min_le_init ys (min a x)) (min_le_right a x)
    · exact ih (min a y) x hxs

theorem foldl_min_mem (xs : List ℚ) (a : ℚ) : xs.foldl min a ∈ a :: xs := by
  induction xs generalizing a with
  | nil => simp
  | cons y ys ih =>
    rw [List.foldl_cons]
    rcases List.mem_cons.mp (ih (min a y)) with h | h
    · rcases min_choice a y with h2 | h2 <;> rw [h, h2]
      · exact List.mem_cons_self _ _
      · exact List.mem_cons_of_mem _ (List.mem_cons_self _ _)
    · exact List.mem_cons_of_mem _ (List.mem_cons_of_mem _ h)

theorem init_le_foldl_max (xs : List ℚ) (a : ℚ) : a ≤ xs.foldl max a := by
  induction xs generalizing a with
  | nil => simp
  | cons y ys ih => exact le_trans (le_max_left a y) (ih (max a y))

theorem mem_le_foldl_max (xs : List ℚ) (a : ℚ) : ∀ x ∈ xs, x ≤ xs.foldl max a := by
  induction xs generalizing a with
  | nil => intro x hx; cases hx
  | cons y ys ih =>
    intro x hx
    rcases List.mem_cons.mp hx with rfl | hxs
    · exact le_trans (le_max_right a x) (init_le_foldl_max ys (max a x))
    · exact ih (max a y) x hxs

theorem foldl_max_mem (xs : List ℚ) (a : ℚ) : xs.foldl max a ∈ a :: xs := by
  induction xs generalizing a with
  | nil => simp
  | cons y ys ih =>
    rw [List.foldl_cons]
    rcases List.mem_cons.mp (ih (max a y)) with h | h
    · rcases max_choice a y with h2 | h2 <;> rw [h, h2]
      · exact List.mem_cons_self _ _
      · exact List.mem_cons_of_mem _ (List.mem_cons_self _ _)
    · exact List.mem_cons_of_mem _ (List.mem_cons_of_mem _ h)

theorem volMin_le {v : Vol3} {x : ℚ} (hx : x ∈ entries v) : volMin v ≤ x := by
  unfold volMin
  rcases hE : entries v with _ | ⟨a, xs⟩
  · rw [hE] at hx; cases hx
  · rw [hE] at hx
    rcases List.mem_cons.mp hx with rfl | hxs
    · exact foldl_min_le_init xs x
    · exact foldl_min_le_mem xs a x hxs

theorem le_volMax {v : Vol3} {x : ℚ} (hx : x ∈ entries v) : x ≤ volMax v := by
  unfold volMax
  rcases hE : entries v with _ | ⟨a, xs⟩
  · rw [hE] at hx; cases hx
  · rw [hE] at hx
    rcases List.mem_cons.mp hx with rfl | hxs
    · exact init_le_foldl_max xs x
    · exact mem_le_foldl_max xs a x hxs

theorem volMin_mem {v : Vol3} (h : entries v ≠ []) : volMin v ∈ entries v := by
  unfold volMin
  cases hE : entries v with
  | nil => exact absurd hE h
  | cons a xs => exact foldl_min_mem xs a

theorem volMax_mem {v : Vol3} (h : entries v ≠ []) : volMax v ∈ entries v := by
  unfold volMax
  cases hE : entries v with
  | nil => exact absurd hE h
  | cons a xs => exact foldl_max_mem xs a

/-- C8: on a nonempty volume that is not constant after clipping,
`preprocess_scan` clips to `[-150, 200]` and min-max normalizes (then
rotates and flips, which only permutes values), so every value of the
result lies in `[0, 1]`, with `0` and `1` both attained; and `scale_array`
fails its assertion whenever the input's max does not exceed its min. -/
theorem preprocess_scan_normalizes (scan : Vol3)
    (hR : 0 < scan.dimR) (hC : 0 < scan.dimC) (hZ : 0 < scan.dimZ)
    (hnc : ∃ i < scan.dimR, ∃ j < scan.dimC, ∃ k < scan.dimZ,
           ∃ i' < scan.dimR, ∃ j' < scan.dimC, ∃ k' < scan.dimZ,
      (np_clip scan (-150) 200).val i j k ≠ (np_clip scan (-150) 200).val i' j' k') :
    (∃ out, preprocess_scan scan = some out ∧
      out.dimR = scan.dimC ∧ out.dimC = scan.dimR ∧ out.dimZ = scan.dimZ ∧
      (∀ i < out.dimR, ∀ j < out.dimC, ∀ k < out.dimZ,
        0 ≤ out.val i j k ∧ out.val i j k ≤ 1) ∧
      (∃ i < out.dimR, ∃ j < out.dimC, ∃ k < out.dimZ, out.val i j k = 0) ∧
      (∃ i < out.dimR, ∃ j < out.dimC, ∃ k < out.dimZ, out.val i j k = 1)) ∧
    (∀ w : Vol3, volMax w ≤ volMin w → scale_array w = none) := by
  set c := np_clip scan (-150) 200 with hc_def
  have hcR : c.dimR = scan.dimR := rfl
  have hcC : c.dimC = scan.dimC := rfl
  have hcZ : c.dimZ = scan.dimZ := rfl
  obtain ⟨i, hi, j, hj, k, hk, i', hi', j', hj', k', hk', hneq⟩ := hnc
  have hx : c.val i j k ∈ entries c := mem_entries.mpr ⟨i, hi, j, hj, k, hk, rfl⟩
  have hy : c.val i' j' k' ∈ entries c :=
    mem_entries.mpr ⟨i', hi', j', hj', k', hk', rfl⟩
  have hmM : volMin c < volMax c := by
    rcases lt_or_le (volMin c) (volMax c) with h | h
    · exact h
    · exfalso
      apply hneq
      have h1 := volMin_le hx
      have h2 := le_volMax hx
      have h3 := volMin_le hy
      have h4 := le_volMax hy
      linarith
  have hpos : 0 < volMax c - volMin c := sub_pos.mpr hmM
  have hscale : scale_array c =
      some { c with val := fun i j k =>
        (c.val i j k - volMin c) / (volMax c - volMin c) } := by
    unfold scale_array
    rw [if_pos hpos]
  set s : Vol3 := { c with val := fun i j k =>
    (c.val i j k - volMin c) / (volMax c - volMin c) } with hs_def
  have hout : preprocess_scan scan = some (np_fliplr (np_rot90 s)) := by
    unfold preprocess_scan
    rw [← hc_def, hscale]
    rfl
  have hne : entries c ≠ [] :=
    List.ne_nil_of_mem (mem_entries.mpr
      ⟨0, by omega, 0, by omega, 0, by omega, rfl⟩)
  refine ⟨⟨np_fliplr (np_rot90 s), hout, rfl, rfl, rfl, ?_, ?_, ?_⟩, ?_⟩
  · intro a ha b hb k0 hk0
    have ha2 : a < scan.dimC := ha
    have hb2 : b < scan.dimR := hb
    have hk2 : k0 < scan.dimZ := hk0
    have hmem : c.val (scan.dimR - 1 - b) (scan.dimC - 1 - a) k0 ∈ entries c :=
      mem_entries.mpr ⟨scan.dimR - 1 - b, by omega, scan.dimC - 1 - a, by omega,
        k0, by omega, rfl⟩
    have h1 := volMin_le hmem
    have h2 := le_volMax hmem
    have hvv : (np_fliplr (np_rot90 s)).val a b k0 =
        (c.val (scan.dimR - 1 - b) (scan.dimC - 1 - a) k0 - volMin c) /
          (volMax c - volMin c) := rfl
    rw [hvv]
    constructor
    · exact div_nonneg (by linarith) (le_of_lt hpos)
    · rw [div_le_one hpos]; linarith
  · obtain ⟨a, ha, b, hb, k0, hk0, heq⟩ := mem_entries.mp (volMin_mem hne)
    refine ⟨scan.dimC - 1 - b, show scan.dimC - 1 - b < scan.dimC by omega,
            scan.dimR - 1 - a, show scan.dimR - 1 - a < scan.dimR by omega,
            k0, show k0 < scan.dimZ from hk0, ?_⟩
    have hvv : (np_fliplr (np_rot90 s)).val (scan.dimC - 1 - b)
        (scan.dimR - 1 - a) k0 =
        (c.val (scan.dimR - 1 - (scan.dimR - 1 - a))
          (scan.dimC - 1 - (scan.dimC - 1 - b)) k0 - volMin c) /
          (volMax c - volMin c) := rfl
    rw [hvv]
    have e1 : scan.dimR - 1 - (scan.dimR - 1 - a) = a := by omega
    have e2 : scan.dimC - 1 - (scan.dimC - 1 - b) = b := by omega
    rw [e1, e2, heq, sub_self, zero_div]
  · obtain ⟨a, ha, b, hb, k0, hk0, heq⟩ := mem_entries.mp (volMax_mem hne)
    refine ⟨scan.dimC - 1 - b, show scan.dimC - 1 - b < scan.dimC by omega,
            scan.dimR - 1 - a, show scan.dimR - 1 - a < scan.dimR by omega,
            k0, show k0 < scan.dimZ from hk0, ?_⟩
    have hvv : (np_fliplr (np_rot90 s)).val (scan.dimC - 1 - b)
        (scan.dimR - 1 - a) k0 =
        (c.val (scan.dimR - 1 - (scan.dimR - 1 - a))
          (scan.dimC - 1 - (scan.dimC - 1 - b)) k0 - volMin c) /
          (volMax c - volMin c) := rfl
    rw [hvv]
    have e1 : scan.dimR - 1 - (scan.dimR - 1 - a) = a := by omega
    have e2 : scan.dimC - 1 - (scan.dimC - 1 - b) = b := by omega
    rw [e1, e2, heq]
    exact div_self (ne_of_gt hpos)
  · intro w hw
    unfold scale_array
    rw [if_neg (not_lt.mpr (sub_nonpos.mpr hw))]

/-- Witness for C8 at the concrete volume `sampleVol`. -/
theorem preprocess_scan_normalizes_witness :
    ((0 < sampleVol.dimR ∧ 0 < sampleVol.dimC ∧ 0 < sampleVol.dimZ) ∧
     (∃ i < sampleVol.dimR, ∃ j < sampleVol.dimC, ∃ k < sampleVol.dimZ,
      ∃ i' < sampleVol.dimR, ∃ j' < sampleVol.dimC, ∃ k' < sampleVol.dimZ,
       (np_clip sampleVol (-150) 200).val i j k ≠
         (np_clip sampleVol (-150) 200).val i' j' k')) ∧
    ((∃ out, preprocess_scan sampleVol = some out ∧
      out.dimR = sampleVol.dimC ∧ out.dimC = sampleVol.dimR ∧
      out.dimZ = sampleVol.dimZ ∧
      (∀ i < out.dimR, ∀ j < out.dimC, ∀ k < out.dimZ,
        0 ≤ out.val i j k ∧ out.val i j k ≤ 1) ∧
      (∃ i < out.dimR, ∃ j < out.dimC, ∃ k < out.dimZ, out.val i j k = 0) ∧
      (∃ i < out.dimR, ∃ j < out.dimC, ∃ k < out.dimZ, out.val i j k = 1)) ∧
    (∀ w : Vol3, volMax w ≤ volMin w → scale_array w = none)) := by
  have hnc : ∃ i < sampleVol.dimR, ∃ j < sampleVol.dimC, ∃ k < sampleVol.dimZ,
      ∃ i' < sampleVol.dimR, ∃ j' < sampleVol.dimC, ∃ k' < sampleVol.dimZ,
      (np_clip sampleVol (-150) 200).val i j k ≠
        (np_clip sampleVol (-150) 200).val i' j' k' :=
    ⟨1, by decide, 0, by decide, 1, by decide, 0, by decide, 0, by decide,
     0, by decide, by norm_num [np_clip, sampleVol]⟩
  exact ⟨⟨⟨by decide, by decide, by decide⟩, hnc⟩,
    preprocess_scan_normalizes sampleVol (by decide) (by decide) (by decide) hnc⟩

/-- On a nonempty uniform image, `label_img_to_rgb` applies the single
relevant vocabulary entry at every pixel. -/
theorem label_img_to_rgb_replicate (v m : ℕ) :
    label_img_to_rgb (List.replicate (m + 1) v) =
      List.replicate (m + 1)
        (let label_infos := SEG_LABELS_LIST.filter (fun l => decide (l.id ∈ [v]))
         let pix := label_infos.foldl
           (fun pix l => if v = l.id then l.rgb_values else pix) (v, v, v)
         (pix.1 % 256, pix.2.1 % 256, pix.2.2 % 256)) := by
  unfold label_img_to_rgb
  rw [List.replicate_dedup (Nat.succ_ne_zero m), List.map_replicate]

/-- C3: for every vocabulary entry, the id→RGB and RGB→id mappings are
mutually inverse on uniform images: a class-id image with all pixels equal
to the entry's id maps to its RGB color, and an RGB image with all pixels
equal to the entry's color maps back to its id. -/
theorem seg_label_maps_inverse (l : SegLabel) (hl : l ∈ SEG_LABELS_LIST) (n : ℕ) :
    label_img_to_rgb (List.replicate n l.id) = List.replicate n l.rgb_values ∧
    rgb_to_labels (List.replicate n l.rgb_values) = List.replicate n l.id := by
  constructor
  · cases n with
    | zero => rfl
    | succ m => fin_cases hl <;> (rw [label_img_to_rgb_replicate]; rfl)
  · unfold rgb_to_labels
    rw [List.map_replicate, List.map_replicate]
    fin_cases hl <;> rfl

/-- Witness for C3 at the first vocabulary entry and a two-pixel image. -/
theorem seg_label_maps_inverse_witness :
    (⟨0, "building", (128, 0, 0)⟩ : SegLabel) ∈ SEG_LABELS_LIST ∧
    (label_img_to_rgb (List.replicate 2 (SegLabel.id ⟨0, "building", (128, 0, 0)⟩)) =
      List.replicate 2 (SegLabel.rgb_values ⟨0, "building", (128, 0, 0)⟩) ∧
     rgb_to_labels (List.replicate 2 (SegLabel.rgb_values ⟨0, "building", (128, 0, 0)⟩)) =
      List.replicate 2 (SegLabel.id ⟨0, "building", (128, 0, 0)⟩)) := by
  have hl : (⟨0, "building", (128, 0, 0)⟩ : SegLabel) ∈ SEG_LABELS_LIST :=
    List.mem_cons_self _ _
  exact ⟨hl, seg_label_maps_inverse _ hl 2⟩

theorem div_bound_aux (i d s : ℕ) (hi : i < (d + (s - 1)) / s) : i * s < d := by
  have h1 : (d + (s - 1)) / s * s ≤ d + (s - 1) := Nat.div_mul_le_self _ _
  have h2 : (i + 1) * s ≤ (d + (s - 1)) / s * s := Nat.mul_le_mul_right s hi
  rw [Nat.succ_mul] at h2
  rcases Nat.eq_zero_or_pos s with rfl | hs
  · simp at hi
  · omega

theorem mem_pyRange_pos {start stop step : ℤ} (hstep : 0 < step) {e : ℤ}
    (he : e ∈ pyRange start stop step) : start ≤ e ∧ e < stop := by
  simp only [pyRange, if_neg (show ¬ step = 0 by omega), if_pos hstep,
    List.mem_map, List.mem_range] at he
  obtain ⟨i, hi, rfl⟩ := he
  have hlt : i * step.toNat < (stop - start).toNat := div_bound_aux i _ _ hi
  have hcast : ((i * step.toNat : ℕ) : ℤ) = step * i := by
    push_cast
    rw [Int.toNat_of_nonneg hstep.le]
    ring
  constructor <;> omega

theorem mem_pyRange_neg {start stop step : ℤ} (hstep : step < 0) {e : ℤ}
    (he : e ∈ pyRange start stop step) : stop < e ∧ e ≤ start := by
  simp only [pyRange, if_neg (show ¬ step = 0 by omega),
    if_neg (show ¬ 0 < step by omega), List.mem_map, List.mem_range] at he
  obtain ⟨i, hi, rfl⟩ := he
  have hlt : i * (-step).toNat < (start - stop).toNat := div_bound_aux i _ _ hi
  have hcast : ((i * (-step).toNat : ℕ) : ℤ) = -(step * i) := by
    push_cast
    rw [Int.toNat_of_nonneg (by omega : (0:ℤ) ≤ -step)]
    ring
  constructor <;> omega

theorem sliceClamp_bounds (v : Option ℤ) (dflt lower upper : ℤ) (length : ℕ)
    (hd1 : lower ≤ dflt) (hd2 : dflt ≤ upper)
    (hupper : (length : ℤ) - 1 ≤ upper) (hlow : lower ≤ 0) :
    lower ≤ sliceClamp v dflt lower upper length ∧
    sliceClamp v dflt lower upper length ≤ upper := by
  rcases v with _ | a
  · exact ⟨hd1, hd2⟩
  · simp only [sliceClamp]
    split_ifs with ha
    · exact ⟨le_max_right _ _, max_le (by omega) (by omega)⟩
    · exact ⟨le_min (by omega) (by omega), min_le_right _ _⟩

/-- Every index a slice selects is a valid index of the sequence. -/
theorem mem_sliceIndices_bounds {start stop step : Option ℤ} {n : ℕ} {e : ℤ}
    (hstep : step.getD 1 ≠ 0) (he : e ∈ sliceIndices start stop step n) :
    0 ≤ e ∧ e < (n : ℤ) := by
  unfold sliceIndices at he
  rcases lt_or_gt_of_ne hstep with hneg | hpos
  · simp only [if_pos hneg] at he
    obtain ⟨h1, h2⟩ := mem_pyRange_neg hneg he
    have hb1 := sliceClamp_bounds start ((n : ℤ) - 1) (-1) ((n : ℤ) - 1) n
      (by omega) (by omega) (by omega) (by omega)
    have hb2 := sliceClamp_bounds stop (-1) (-1) ((n : ℤ) - 1) n
      (by omega) (by omega) (by omega) (by omega)
    omega
  · simp only [if_neg (show ¬ step.getD 1 < 0 by omega)] at he
    obtain ⟨h1, h2⟩ := mem_pyRange_pos hpos he
    have hb1 := sliceClamp_bounds start 0 0 (n : ℤ) n
      (by omega) (by omega) (by omega) (by omega)
    have hb2 := sliceClamp_bounds stop (n : ℤ) 0 (n : ℤ) n
      (by omega) (by omega) (by omega) (by omega)
    omega

/-- An in-range lookup fetches the sample. -/
theorem getitem_int_eq {α : Type} (fetch : ℕ → α) (n : ℕ) (k : ℤ)
    (h1 : -(n : ℤ) ≤ k) (h2 : k < (n : ℤ)) :
    getitem_int fetch n k =
      GetResult.item (fetch (if k < 0 then k + n else k).toNat) := by
  unfold getitem_int
  rw [if_neg]
  rcases lt_or_le k 0 with hk | hk
  · rw [if_pos hk]; push_neg; omega
  · rw [if_neg (by omega)]; push_neg; omega

/-- An out-of-range lookup raises `IndexError`. -/
theorem getitem_int_err {α : Type} (fetch : ℕ → α) (n : ℕ) (k : ℤ)
    (h : (n : ℤ) ≤ k ∨ k < -(n : ℤ)) :
    getitem_int fetch n k = GetResult.indexError := by
  unfold getitem_int
  rw [if_pos]
  rcases lt_or_le k 0 with hk | hk
  · rw [if_pos hk]; omega
  · rw [if_neg (by omega)]; omega

/-- A comprehension over in-range indices collects all fetched samples. -/
theorem collectItems_map {α : Type} (fetch : ℕ → α) (n : ℕ) :
    ∀ l : List ℤ, (∀ e ∈ l, 0 ≤ e ∧ e < (n : ℤ)) →
      collectItems (l.map (fun ii => getitem_int fetch n ii)) =
        some (l.map (fun i => fetch i.toNat)) := by
  intro l
  induction l with
  | nil => intro _; rfl
  | cons e t ih =>
    intro hb
    have he := hb e (List.mem_cons_self e t)
    have hfetch : getitem_int fetch n e = GetResult.item (fetch e.toNat) := by
      rw [getitem_int_eq fetch n e (by omega) (by omega), if_neg (by omega)]
    rw [List.map_cons, hfetch, List.map_cons]
    simp only [collectItems]
    rw [ih (fun x hx => hb x (List.mem_cons_of_mem e hx))]
    rfl

/-- C9: the shared `__getitem__` logic of `MSD_data`, `MSD_data_images`
and `SegmentationData`: a negative key `-n ≤ k < 0` indexes like `k + n`;
a key outside `[-n, n)` raises `IndexError`; a slice (with nonzero step)
returns the list of samples at the slice's indices; any other key raises
`TypeError`. -/
theorem dataset_getitem_spec {α : Type} (fetch : ℕ → α) (n : ℕ) :
    (∀ k : ℤ, -(n : ℤ) ≤ k → k < 0 →
      dataset_getitem fetch n (Key.int k) =
        dataset_getitem fetch n (Key.int (k + n))) ∧
    (∀ k : ℤ, (n : ℤ) ≤ k ∨ k < -(n : ℤ) →
      dataset_getitem fetch n (Key.int k) = GetResult.indexError) ∧
    (∀ start stop step : Option ℤ, step.getD 1 ≠ 0 →
      dataset_getitem fetch n (Key.slice start stop step) =
        GetResult.items ((sliceIndices start stop step n).map
          (fun i => fetch i.toNat))) ∧
    dataset_getitem fetch n Key.other = GetResult.typeError := by
  refine ⟨?_, ?_, ?_, rfl⟩
  · intro k h1 h2
    show getitem_int fetch n k = getitem_int fetch n (k + n)
    rcases lt_or_le (k + n) (n : ℤ) with hlt | hle
    · rw [getitem_int_eq fetch n k h1 (by omega),
        getitem_int_eq fetch n (k + n) (by omega) hlt,
        if_pos h2, if_neg (by omega)]
    · rw [getitem_int_err fetch n k (by omega),
        getitem_int_err fetch n (k + n) (by omega)]
  · intro k h
    exact getitem_int_err fetch n k h
  · intro start stop step hstep
    show (if step.getD 1 = 0 then GetResult.valueError
      else match collectItems ((sliceIndices start stop step n).map
          (fun ii => getitem_int fetch n ii)) with
        | some xs => GetResult.items xs
        | none => GetResult.indexError) = _
    rw [if_neg hstep,
      collectItems_map fetch n (sliceIndices start stop step n)
        (fun e he => mem_sliceIndices_bounds hstep he)]

/-- Witness for C9 with `fetch i = 10 * i`, `n = 3`. -/
theorem dataset_getitem_spec_witness :
    (-((3:ℕ) : ℤ) ≤ -1 ∧ (-1 : ℤ) < 0 ∧
      dataset_getitem (fun i : ℕ => 10 * i) 3 (Key.int (-1)) =
        dataset_getitem (fun i : ℕ => 10 * i) 3 (Key.int (-1 + (3:ℕ)))) ∧
    ((((3:ℕ) : ℤ) ≤ 5 ∨ (5 : ℤ) < -((3:ℕ) : ℤ)) ∧
      dataset_getitem (fun i : ℕ => 10 * i) 3 (Key.int 5) = GetResult.indexError) ∧
    ((none : Option ℤ).getD 1 ≠ 0 ∧
      dataset_getitem (fun i : ℕ => 10 * i) 3 (Key.slice none none none) =
        GetResult.items ((sliceIndices none none none 3).map
          (fun i => 10 * i.toNat))) ∧
    dataset_getitem (fun i : ℕ => 10 * i) 3 Key.other = GetResult.typeError := by
  have h := dataset_getitem_spec (fun i : ℕ => 10 * i) 3
  exact ⟨⟨by decide, by decide, h.1 (-1) (by decide) (by decide)⟩,
         ⟨by decide, h.2.1 5 (by decide)⟩,
         ⟨by decide, h.2.2.1 none none none (by decide)⟩,
         h.2.2.2⟩

/-- C7: with `epsilon = None`, `calc_mean_std` returns exactly the plain
statistics of the accumulated samples — per-channel mean and (unbiased)
standard deviation when the channel axis has size 1 or 3, pooled scalar
statistics otherwise — independently of the Laplace draws: no noise is
added. -/
theorem calc_mean_std_none_is_plain (sqrtFn : ℚ → ℚ) (lapMeanDraw lapStdDraw : ℚ)
    (ds : List Sample) :
    calc_mean_std sqrtFn lapMeanDraw lapStdDraw ds none =
      (if sampleChannels ds = 1 ∨ sampleChannels ds = 3 then
        ((List.range (sampleChannels ds)).map (fun c => torch_mean (channelValues ds c)),
         (List.range (sampleChannels ds)).map (fun c => sqrtFn (listVar (channelValues ds c))))
      else
        ([torch_mean (allValues ds)], [sqrtFn (listVar (allValues ds))])) := by
  unfold calc_mean_std std_mean torch_std
  simp only [Option.getD_none, ne_eq, not_true_eq_false, if_false]
  split <;> simp
